import Mathlib

/-!
Shallow embedding of the ledger store module of the platform repository
(file src/ledger/src/store/store.rs), together with theorems settling the
claims about it.

Modelling conventions:
* Rust machine integers (u64, usize) are embedded as Nat with explicit
  reduction mod 2^64 wherever the source performs arithmetic that can wrap.
* HashMap<K, V> is embedded as an association list with unique keys
  (lookup finds the first matching key; insert removes any previous
  binding and prepends).  HashMap iteration order is unspecified in Rust;
  the embedding fixes the list order.  None of the proved statements
  depend on the order except through well-formedness hypotheses that are
  true of every map (keys occur at most once).
* External cryptographic oracles (ed25519 signature checks, the zei
  confidential-transfer verifier, sha256, the Merkle accumulator) are
  embedded abstractly: each signature / proof carries its verification
  verdict as a Bool, and digests are an inductive type whose constructors
  record exactly the data that was hashed (a computable stand-in for a
  collision-resistant hash: injective by construction).
* Rust panics (Option::unwrap on None) are a distinguished Outcome
  constructor, separate from returned errors.
-/

set_option autoImplicit false
set_option linter.unusedVariables false

instance {ε α : Type} [DecidableEq ε] [DecidableEq α] : DecidableEq (Except ε α) := fun x y =>
  match x, y with
  | .error a, .error b =>
    if h : a = b then isTrue (by rw [h]) else isFalse (fun hc => h (Except.error.inj hc))
  | .error _, .ok _ => isFalse (fun hc => Except.noConfusion hc)
  | .ok _, .error _ => isFalse (fun hc => Except.noConfusion hc)
  | .ok a, .ok b =>
    if h : a = b then isTrue (by rw [h]) else isFalse (fun hc => h (Except.ok.inj hc))

/-- Modulus of the u64 machine integers used by the ledger counters. -/
def U64 : Nat := 18446744073709551616

/-- Reduction mod 2^64, applied wherever the source does u64 arithmetic. -/
def u64mod (n : Nat) : Nat := n % U64

/-- Blinded asset record (zei BlindAssetRecord); contents are opaque to the
ledger core, so it is embedded as an opaque tag. -/
structure BlindAssetRecord where
  val : Nat
deriving DecidableEq, Repr

/-- Transaction output: TxOutput(BlindAssetRecord). -/
structure TxOutput where
  record : BlindAssetRecord
deriving DecidableEq, Repr

/-- Unspent transaction output: Utxo(TxOutput). -/
structure Utxo where
  out : TxOutput
deriving DecidableEq, Repr

/-- Asset properties carried by a DefineAsset body (code plus the remaining
fields, opaque to the store logic). -/
structure Asset where
  code : Nat
  payload : Nat
deriving DecidableEq, Repr

/-- Registered asset type metadata. -/
structure AssetType where
  properties : Asset
deriving DecidableEq, Repr

/-- Reference to a transfer input: relative to outputs created earlier in
the same transaction, or absolute into the committed ledger. -/
inductive TxoRef
  | Relative (offs : Nat)
  | Absolute (sid : Nat)
deriving DecidableEq, Repr

/-- DefineAsset operation.  The signature check outcome of the external
verifier over the serialized body is carried as a Bool. -/
structure DefineAsset where
  body_asset : Asset
  sigValid : Bool
deriving DecidableEq, Repr

/-- Body of an IssueAsset operation. -/
structure IssueAssetBody where
  code : Nat
  seq_num : Nat
  num_outputs : Nat
  records : List TxOutput
deriving DecidableEq, Repr

/-- IssueAsset operation, with the issuer-signature verdict. -/
structure IssueAsset where
  body : IssueAssetBody
  sigValid : Bool
deriving DecidableEq, Repr

/-- Body of the embedded zei transfer note, with the verdict of the
external confidential-transfer-proof verifier. -/
structure XfrBody where
  inputs : List BlindAssetRecord
  outputs : List BlindAssetRecord
  proofValid : Bool
deriving DecidableEq, Repr

/-- Body of a TransferAsset operation. -/
structure TransferAssetBody where
  inputs : List TxoRef
  num_outputs : Nat
  transfer : XfrBody
deriving DecidableEq, Repr

/-- TransferAsset operation; body_signatures holds the verdict of each
attached signature against the body bytes. -/
structure TransferAsset where
  body : TransferAssetBody
  body_signatures : List Bool
deriving DecidableEq, Repr

/-- The three operation variants. -/
inductive Operation
  | DefineAsset (d : DefineAsset)
  | IssueAsset (i : IssueAsset)
  | TransferAsset (t : TransferAsset)
deriving DecidableEq, Repr

/-- A transaction: an ordered sequence of operations. -/
structure Transaction where
  operations : List Operation
deriving DecidableEq, Repr

/-- Error type of the platform (data_model/errors.rs). -/
inductive PlatformError
  | DeserializationError
  | SerializationError
  | InputsError
  | ZeiError (code : Nat)
  | IoError (msg : String)
deriving DecidableEq, Repr

/-- Validated transaction-local effect (store.rs TxnEffect). -/
structure TxnEffect where
  txn : Transaction
  txos : List (Option TxOutput)
  input_txos : List (Nat × BlindAssetRecord)
  new_asset_codes : List (Nat × AssetType)
  new_issuance_nums : List (Nat × List Nat)
deriving DecidableEq, Repr

/-- A committed transaction with its assigned TxnSID and Merkle leaf id. -/
structure FinalizedTransaction where
  txn : Transaction
  tx_id : Nat
  merkle_id : Nat
deriving DecidableEq, Repr

/-- Digests: the all-zero initial digest, bitmap checksums, and sha256 of a
GlobalHashData record (bitmap digest, merkle root, block counter, previous
global hash).  Constructors record the hashed data, giving a computable
injective model of a collision-resistant hash. -/
inductive BitDigest
  | zero
  | checksum (bits : List Bool)
  | sha (bitmap : BitDigest) (merkle : List (Transaction × Nat)) (block : Nat)
        (global_hash : BitDigest)
deriving DecidableEq, Repr

/-! ### Association-list embedding of HashMap -/

/-- Lookup the first binding of a key. -/
def alookup {β : Type} : List (Nat × β) → Nat → Option β
  | [], _ => none
  | p :: rest, k => if p.1 = k then some p.2 else alookup rest k

/-- Remove every binding of a key (HashMap::remove; maps bind each key at
most once). -/
def aremove {β : Type} : List (Nat × β) → Nat → List (Nat × β)
  | [], _ => []
  | p :: rest, k => if p.1 = k then aremove rest k else p :: aremove rest k

/-- Insert a binding, replacing any previous binding of the key
(HashMap::insert). -/
def ainsert {β : Type} (m : List (Nat × β)) (k : Nat) (v : β) : List (Nat × β) :=
  (k, v) :: aremove m k

/-! ### Ledger status -/

/-- Serializable global ledger state (store.rs LedgerStatus). -/
structure LedgerStatus where
  merkle_path : String
  txn_path : String
  utxo_map_path : String
  utxos : List (Nat × Utxo)
  utxo_map_versions : List (Nat × BitDigest)
  asset_types : List (Nat × AssetType)
  issuance_num : List (Nat × Nat)
  next_txn : Nat
  next_txo : Nat
  global_hash : BitDigest
  global_commit_count : Nat
deriving DecidableEq, Repr

/-- LedgerStatus::new. -/
def LedgerStatus.new (merkle_path txn_path utxo_map_path : String) : LedgerStatus :=
  { merkle_path := merkle_path
    txn_path := txn_path
    utxo_map_path := utxo_map_path
    utxos := []
    utxo_map_versions := []
    asset_types := []
    issuance_num := []
    next_txn := 0
    next_txo := 0
    global_hash := BitDigest.zero
    global_commit_count := 0 }

/-- Outcome of a Rust call: returned value, returned error, or panic. -/
inductive Outcome (α : Type)
  | ok (val : α)
  | err (e : PlatformError)
  | panicked
deriving DecidableEq, Repr

/-- True iff the outcome is a returned value. -/
def Outcome.isOk {α : Type} : Outcome α → Bool
  | .ok _ => true
  | _ => false

/-- True iff the outcome is a returned error. -/
def Outcome.isErr {α : Type} : Outcome α → Bool
  | .err _ => true
  | _ => false

/-- Stage-1 input check of apply_txn_effects: each absolute input must be
bound in utxos to a Utxo whose record equals the claimed record. -/
def checkInputs (utxos : List (Nat × Utxo)) :
    List (Nat × BlindAssetRecord) → Option PlatformError
  | [] => none
  | (sid, rec) :: rest =>
    match alookup utxos sid with
    | none => some PlatformError.InputsError
    | some u =>
      if u.out.record ≠ rec then some PlatformError.InputsError
      else checkInputs utxos rest

/-- Stage-1 new-asset check of apply_txn_effects: each newly defined code
must be registered in neither asset_types nor issuance_num. -/
def checkNewAssets (st : LedgerStatus) : List (Nat × AssetType) → Option PlatformError
  | [] => none
  | (code, _) :: rest =>
    if (alookup st.asset_types code).isSome then some PlatformError.InputsError
    else if (alookup st.issuance_num code).isSome then some PlatformError.InputsError
    else checkNewAssets st rest

/-- Stage-1 issuance check of apply_txn_effects.  An empty sequence list is
legal only if the code is defined in this same effect; a nonempty list
reads the current watermark with Option::unwrap (panicking when the code
has no watermark) and requires the first (minimum) element not to be below
it. -/
def checkIssuanceNums (st : LedgerStatus) (newCodes : List (Nat × AssetType)) :
    List (Nat × List Nat) → Outcome Unit
  | [] => .ok ()
  | (code, seq_nums) :: rest =>
    match seq_nums with
    | [] =>
      if (alookup newCodes code).isNone then .err PlatformError.InputsError
      else checkIssuanceNums st newCodes rest
    | min_seq :: _ =>
      match alookup st.issuance_num code with
      | none => .panicked
      | some limit =>
        if min_seq < limit then .err PlatformError.InputsError
        else checkIssuanceNums st newCodes rest

/-- New issuance watermark for a sorted sequence-number list: one past the
last (greatest) number, or 0 when the list is empty
(seq_nums.last().map(|x| x+1).unwrap_or(0)). -/
def newWatermark (ns : List Nat) : Nat :=
  match ns.getLast? with
  | some x => u64mod (x + 1)
  | none => 0

/-- TxoSIDs allocated to the produced (non-None) output slots, counted from
base: slot ix contributes base + ix (as u64) when it is Some. -/
def newUtxoSidsAux (base : Nat) : Nat → List (Option TxOutput) → List Nat
  | _, [] => []
  | ix, none :: rest => newUtxoSidsAux base (ix + 1) rest
  | ix, some _ :: rest => u64mod (base + ix) :: newUtxoSidsAux base (ix + 1) rest

/-- The new_utxo_sids list computed at the top of apply_txn_effects. -/
def newUtxoSids (st : LedgerStatus) (txos : List (Option TxOutput)) : List Nat :=
  newUtxoSidsAux st.next_txo 0 txos

/-- LedgerStatus::apply_txn_effects.  Stage 1 validates every effect against
the current state (returning the error, or panicking, with the state
untouched); stage 2 applies all the mutations.  The mutated (or untouched)
state is returned alongside the outcome, mirroring in-place mutation of
self in the source. -/
def apply_txn_effects (st : LedgerStatus) (txn : TxnEffect) :
    Outcome (Nat × List Nat) × LedgerStatus :=
  let new_txn := st.next_txn
  let new_utxo_sids := newUtxoSids st txn.txos
  match checkInputs st.utxos txn.input_txos with
  | some e => (.err e, st)
  | none =>
    match checkNewAssets st txn.new_asset_codes with
    | some e => (.err e, st)
    | none =>
      match checkIssuanceNums st txn.new_asset_codes txn.new_issuance_nums with
      | .err e => (.err e, st)
      | .panicked => (.panicked, st)
      | .ok _ =>
        let utxos1 := txn.input_txos.foldl (fun m p => aremove m p.1) st.utxos
        let utxos2 := ((new_utxo_sids.zip (txn.txos.filterMap id)).foldl
          (fun m p => ainsert m p.1 (Utxo.mk p.2)) utxos1)
        let inum := txn.new_issuance_nums.foldl
          (fun m p => ainsert m p.1 (newWatermark p.2)) st.issuance_num
        let atypes := txn.new_asset_codes.foldl
          (fun m p => ainsert m p.1 p.2) st.asset_types
        (.ok (new_txn, new_utxo_sids),
         { st with
            next_txn := u64mod (st.next_txn + 1)
            next_txo := u64mod (st.next_txo + txn.txos.length)
            utxos := utxos2
            issuance_num := inum
            asset_types := atypes })

/-- LedgerStatus::get_utxo. -/
def LedgerStatus.get_utxo (st : LedgerStatus) (addr : Nat) : Option Utxo :=
  alookup st.utxos addr

/-- LedgerStatus::get_issuance_num. -/
def LedgerStatus.get_issuance_num (st : LedgerStatus) (code : Nat) : Option Nat :=
  alookup st.issuance_num code

/-- LedgerStatus::get_asset_type. -/
def LedgerStatus.get_asset_type (st : LedgerStatus) (code : Nat) : Option AssetType :=
  alookup st.asset_types code

/-! ### Ledger state (durable layer) -/

/-- Durable ledger state (store.rs LedgerState): status plus the Merkle
accumulator (embedded as its leaf list; a leaf is the merkle hash binding a
transaction to its TxnSID), the finalized-transaction history, and the UTXO
bitmap (list of bits; BitMap::set extends the map, BitMap::clear writes a
zero in place).  The transaction-log file handle carries no state and is
omitted. -/
structure LedgerState where
  status : LedgerStatus
  merkle : List (Transaction × Nat)
  txs : List FinalizedTransaction
  utxo_map : List Bool
deriving DecidableEq, Repr

/-- BitMap::set: extend the bitmap with zero bits as needed, then set bit
ix to one. -/
def bitmapSet (m : List Bool) (ix : Nat) : List Bool :=
  let m' := if m.length ≤ ix then m ++ List.replicate (ix + 1 - m.length) false else m
  m'.set ix true

/-- BitMap::clear: write a zero at bit ix. -/
def bitmapClear (m : List Bool) (ix : Nat) : List Bool :=
  m.set ix false

/-- The bitmap-update loop of apply_transaction, iterating ix over
base..max (count is the number of remaining iterations): set each slot of
the newly allocated range, then clear it again when the cursor into the
returned unspent-sid list does not name it; when the cursor has run past
the end of that list the bit is left set. -/
def bitmapUpdateLoop (m : List Bool) (sids : List Nat) (utxo_ix ix : Nat) :
    Nat → List Bool
  | 0 => m
  | count + 1 =>
    let m1 := bitmapSet m ix
    match sids.get? utxo_ix with
    | some s =>
      if s ≠ ix then bitmapUpdateLoop (bitmapClear m1 ix) sids utxo_ix (ix + 1) count
      else bitmapUpdateLoop m1 sids (utxo_ix + 1) (ix + 1) count
    | none => bitmapUpdateLoop m1 sids utxo_ix (ix + 1) count

/-- Transaction::compute_merkle_hash, embedded as the pair of the
transaction and its assigned TxnSID (injective stand-in for the leaf
hash). -/
def compute_merkle_hash (txn : Transaction) (sid : Nat) : Transaction × Nat :=
  (txn, sid)

/-- LedgerState::apply_transaction (LedgerUpdate impl): delegate to
apply_txn_effects, then update the UTXO bitmap over the allocated range,
append the transaction hash to the Merkle accumulator, and record the
finalized transaction. -/
def apply_transaction (st : LedgerState) (txn : TxnEffect) :
    Outcome (Nat × List Nat) × LedgerState :=
  let base_sid := st.status.next_txo
  match apply_txn_effects st.status txn with
  | (.err e, status1) => (.err e, { st with status := status1 })
  | (.panicked, status1) => (.panicked, { st with status := status1 })
  | (.ok (txn_sid, utxo_sids), status1) =>
    let max_sid := status1.next_txo
    let utxo_map1 := bitmapUpdateLoop st.utxo_map utxo_sids 0 base_sid (max_sid - base_sid)
    let hash := compute_merkle_hash txn.txn txn_sid
    let merkle_id := st.merkle.length
    let merkle1 := st.merkle ++ [hash]
    let txs1 := st.txs ++ [{ txn := txn.txn, tx_id := txn_sid, merkle_id := merkle_id }]
    (.ok (txn_sid, utxo_sids),
     { status := status1, merkle := merkle1, txs := txs1, utxo_map := utxo_map1 })

/-- Bound on the utxo_map_versions history (store.rs MAX_VERSION). -/
def MAX_VERSION : Nat := 100

/-- BitMap::compute_checksum, embedded as the injective checksum digest of
the bit list. -/
def compute_checksum (m : List Bool) : BitDigest :=
  BitDigest.checksum m

/-- LedgerState::save_utxo_map_version: drop the oldest entry when the
history has reached MAX_VERSION entries, then push (next_txn, current
bitmap checksum). -/
def save_utxo_map_version (st : LedgerState) : LedgerState :=
  let versions :=
    if MAX_VERSION ≤ st.status.utxo_map_versions.length then
      st.status.utxo_map_versions.tail
    else st.status.utxo_map_versions
  { st with status := { st.status with
      utxo_map_versions :=
        versions ++ [(st.status.next_txn, compute_checksum st.utxo_map)] } }

/-- LedgerState::save_global_hash: hash the GlobalHashData record (bitmap
checksum, Merkle root, commit count, previous global hash) into the new
global hash, and advance the commit counter. -/
def save_global_hash (st : LedgerState) : LedgerState :=
  { st with status := { st.status with
      global_hash := BitDigest.sha (compute_checksum st.utxo_map) st.merkle
        st.status.global_commit_count st.status.global_hash
      global_commit_count := u64mod (st.status.global_commit_count + 1) } }

/-- LedgerState::checkpoint: save a bitmap version, then the global hash. -/
def checkpoint (st : LedgerState) : LedgerState :=
  save_global_hash (save_utxo_map_version st)

/-- LedgerState::get_transaction (ArchiveAccess impl). -/
def get_transaction (st : LedgerState) (addr : Nat) : Option FinalizedTransaction :=
  st.txs.get? addr

/-- A fresh LedgerStatus (LedgerStatus::new with throwaway paths, as built
by LedgerState::new / test_ledger). -/
def freshStatus : LedgerStatus :=
  LedgerStatus.new "merkle" "txn" "utxo_map"

/-- A fresh LedgerState: fresh status, empty Merkle accumulator, no
finalized transactions, empty bitmap. -/
def freshState : LedgerState :=
  { status := freshStatus, merkle := [], txs := [], utxo_map := [] }

/-! ### The transaction effect compiler -/

/-- External confidential-transfer verifier (zei verify_xfr_note).  The
source threads a PRNG into the verifier; per the external-interface
contract the verdict is a deterministic property of the note, so the model
ignores the PRNG argument and returns the note's verdict. -/
def verify_xfr_note (prng : Nat) (body : XfrBody) : Except PlatformError Unit :=
  if body.proofValid then .ok () else .error (PlatformError.ZeiError 1)

/-- The per-transfer input loop of compute_effect: a Relative reference
must name an output slot created earlier in this transaction, still
present, with a record equal to the claimed one, and the slot is then
marked consumed; an Absolute reference is recorded in input_txos, failing
when the same absolute id was already claimed. -/
def transferInputsLoop (txos : List (Option TxOutput))
    (input_txos : List (Nat × BlindAssetRecord)) :
    List (TxoRef × BlindAssetRecord) →
      Except PlatformError (List (Option TxOutput) × List (Nat × BlindAssetRecord))
  | [] => .ok (txos, input_txos)
  | (inp, record) :: rest =>
    match inp with
    | .Relative offs =>
      if txos.length ≤ offs then .error PlatformError.InputsError
      else
        let ix := (txos.length - 1) - offs
        match txos.get? ix with
        | none => .error PlatformError.InputsError  -- unreachable: ix < txos.length
        | some none => .error PlatformError.InputsError
        | some (some out) =>
          if out.record ≠ record then .error PlatformError.InputsError
          else transferInputsLoop (txos.set ix none) input_txos rest
    | .Absolute txo_sid =>
      if (alookup input_txos txo_sid).isSome then .error PlatformError.InputsError
      else transferInputsLoop txos (ainsert input_txos txo_sid record) rest

/-- The operation loop of TxnEffect::compute_effect, accumulating the
output slots, claimed absolute inputs, newly defined asset types and
issuance sequence numbers. -/
def computeEffectOps (prng : Nat) :
    List Operation → List (Option TxOutput) → List (Nat × BlindAssetRecord) →
    List (Nat × AssetType) → List (Nat × List Nat) →
    Except PlatformError
      (List (Option TxOutput) × List (Nat × BlindAssetRecord) ×
       List (Nat × AssetType) × List (Nat × List Nat))
  | [], txos, input_txos, nac, nin => .ok (txos, input_txos, nac, nin)
  | op :: rest, txos, input_txos, nac, nin =>
    match op with
    | .DefineAsset d =>
      if !d.sigValid then .error (PlatformError.ZeiError 0)
      else
        let code := d.body_asset.code
        let token : AssetType := { properties := d.body_asset }
        if (alookup nac code).isSome || (alookup nin code).isSome then
          .error PlatformError.InputsError
        else
          computeEffectOps prng rest txos input_txos (ainsert nac code token)
            (ainsert nin code [])
    | .IssueAsset iss =>
      if iss.body.num_outputs ≠ iss.body.records.length then
        .error PlatformError.InputsError
      else
        let code := iss.body.code
        let seq_num := iss.body.seq_num
        let nin1 := if (alookup nin code).isNone then ainsert nin code [] else nin
        let iss_nums := (alookup nin1 code).getD []
        let replay : Bool :=
          match iss_nums.getLast? with
          | some last_num => decide (seq_num ≤ last_num)
          | none => false
        if replay then .error PlatformError.InputsError
        else
          let nin2 := ainsert nin1 code (iss_nums ++ [seq_num])
          if !iss.sigValid then .error (PlatformError.ZeiError 0)
          else
            computeEffectOps prng rest (txos ++ iss.body.records.map some)
              input_txos nac nin2
    | .TransferAsset trn =>
      if trn.body.inputs.length ≠ trn.body.transfer.inputs.length then
        .error PlatformError.InputsError
      else if trn.body.num_outputs ≠ trn.body.transfer.outputs.length then
        .error PlatformError.InputsError
      else if trn.body_signatures.any (fun sig => !sig) then
        .error PlatformError.InputsError
      else
        match verify_xfr_note prng trn.body.transfer with
        | .error e => .error e
        | .ok _ =>
          match transferInputsLoop txos input_txos
              (trn.body.inputs.zip trn.body.transfer.inputs) with
          | .error e => .error e
          | .ok (txos1, input_txos1) =>
            computeEffectOps prng rest
              (txos1 ++ trn.body.transfer.outputs.map (fun out => some { record := out }))
              input_txos1 nac nin

/-- TxnEffect::compute_effect: validate the transaction operation by
operation and build its effect. -/
def compute_effect (prng : Nat) (txn : Transaction) : Except PlatformError TxnEffect :=
  match computeEffectOps prng txn.operations [] [] [] [] with
  | .error e => .error e
  | .ok (txos, input_txos, nac, nin) =>
    .ok { txn := txn, txos := txos, input_txos := input_txos,
          new_asset_codes := nac, new_issuance_nums := nin }

/-! ### Association-list lemmas -/

section AssocLemmas

variable {β γ : Type}

@[simp] theorem alookup_nil (k : Nat) : alookup ([] : List (Nat × β)) k = none := rfl

theorem alookup_cons (p : Nat × β) (m : List (Nat × β)) (k : Nat) :
    alookup (p :: m) k = if p.1 = k then some p.2 else alookup m k := rfl

@[simp] theorem alookup_aremove_self (m : List (Nat × β)) (k : Nat) :
    alookup (aremove m k) k = none := by
  induction m with
  | nil => rfl
  | cons p rest ih =>
    by_cases h : p.1 = k <;> simp [aremove, alookup, h, ih]

theorem alookup_aremove_ne (m : List (Nat × β)) (k k' : Nat) (h : k' ≠ k) :
    alookup (aremove m k) k' = alookup m k' := by
  induction m with
  | nil => rfl
  | cons p rest ih =>
    by_cases hp : p.1 = k
    · simp [aremove, alookup, hp, ih, Ne.symm h]
    · by_cases hp' : p.1 = k' <;> simp [aremove, alookup, hp, hp', ih, h, Ne.symm h]

@[simp] theorem alookup_ainsert_self (m : List (Nat × β)) (k : Nat) (v : β) :
    alookup (ainsert m k v) k = some v := by
  simp [ainsert, alookup]

theorem alookup_ainsert_ne (m : List (Nat × β)) (k k' : Nat) (v : β) (h : k' ≠ k) :
    alookup (ainsert m k v) k' = alookup m k' := by
  have : k ≠ k' := by omega
  simp [ainsert, alookup, this, alookup_aremove_ne m k k' h]

theorem mem_of_alookup_some (m : List (Nat × β)) (k : Nat) (v : β)
    (h : alookup m k = some v) : (k, v) ∈ m := by
  induction m with
  | nil => simp [alookup] at h
  | cons p rest ih =>
    rcases p with ⟨a, b⟩
    by_cases hp : a = k
    · subst hp
      simp [alookup] at h
      subst h
      exact List.mem_cons_self _ _
    · simp [alookup, hp] at h
      exact List.mem_cons_of_mem _ (ih h)

theorem mem_keys_of_alookup_some (m : List (Nat × β)) (k : Nat) (v : β)
    (h : alookup m k = some v) : k ∈ m.map Prod.fst := by
  have := mem_of_alookup_some m k v h
  exact List.mem_map.mpr ⟨(k, v), this, rfl⟩

theorem alookup_eq_none_of_not_mem_keys (m : List (Nat × β)) (k : Nat)
    (h : k ∉ m.map Prod.fst) : alookup m k = none := by
  induction m with
  | nil => rfl
  | cons p rest ih =>
    simp only [List.map_cons, List.mem_cons] at h
    push_neg at h
    have hp : p.1 ≠ k := fun hc => h.1 hc.symm
    simp [alookup, hp, ih h.2]

theorem alookup_isSome_of_mem_keys (m : List (Nat × β)) (k : Nat)
    (h : k ∈ m.map Prod.fst) : (alookup m k).isSome := by
  induction m with
  | nil => simp at h
  | cons p rest ih =>
    simp only [List.map_cons, List.mem_cons] at h
    by_cases hp : p.1 = k
    · simp [alookup, hp]
    · have : k ∈ rest.map Prod.fst := by
        rcases h with h | h
        · exact absurd h.symm hp
        · exact h
      simp [alookup, hp, ih this]

theorem alookup_of_mem_nodup (m : List (Nat × β)) (k : Nat) (v : β)
    (hnd : (m.map Prod.fst).Nodup) (hmem : (k, v) ∈ m) :
    alookup m k = some v := by
  induction m with
  | nil => simp at hmem
  | cons p rest ih =>
    simp only [List.map_cons, List.nodup_cons] at hnd
    rcases List.mem_cons.mp hmem with h | h
    · subst h
      simp [alookup]
    · have hp : p.1 ≠ k := by
        intro hc
        exact hnd.1 (hc ▸ List.mem_map.mpr ⟨(k, v), h, rfl⟩)
      simp [alookup, hp, ih hnd.2 h]

theorem mem_keys_aremove (m : List (Nat × β)) (k k' : Nat)
    (h : k' ∈ (aremove m k).map Prod.fst) : k' ∈ m.map Prod.fst := by
  induction m with
  | nil => simp [aremove] at h
  | cons p rest ih =>
    by_cases hp : p.1 = k
    · simp only [aremove, if_pos hp] at h
      simp only [List.map_cons, List.mem_cons]
      exact Or.inr (ih h)
    · simp only [aremove, if_neg hp, List.map_cons, List.mem_cons] at h ⊢
      rcases h with h | h
      · exact Or.inl h
      · exact Or.inr (ih h)

end AssocLemmas

/-! ### Fold lemmas -/

section FoldLemmas

variable {β γ : Type}

theorem alookup_foldl_ainsert_of_not_mem_keys (f : Nat × γ → β) (l : List (Nat × γ))
    (m0 : List (Nat × β)) (k : Nat) (h : k ∉ l.map Prod.fst) :
    alookup (l.foldl (fun m p => ainsert m p.1 (f p)) m0) k = alookup m0 k := by
  induction l generalizing m0 with
  | nil => rfl
  | cons p rest ih =>
    simp only [List.map_cons, List.mem_cons] at h
    push_neg at h
    rw [List.foldl_cons, ih _ h.2, alookup_ainsert_ne _ _ _ _ h.1]

theorem alookup_foldl_ainsert_of_mem (f : Nat × γ → β) (l : List (Nat × γ))
    (m0 : List (Nat × β)) (k : Nat) (v : γ)
    (hnd : (l.map Prod.fst).Nodup) (hmem : (k, v) ∈ l) :
    alookup (l.foldl (fun m p => ainsert m p.1 (f p)) m0) k = some (f (k, v)) := by
  induction l generalizing m0 with
  | nil => simp at hmem
  | cons p rest ih =>
    simp only [List.map_cons, List.nodup_cons] at hnd
    rcases List.mem_cons.mp hmem with h | h
    · subst h
      rw [List.foldl_cons]
      have hk : (k : Nat) ∉ rest.map Prod.fst := by simpa using hnd.1
      rw [alookup_foldl_ainsert_of_not_mem_keys f rest _ k hk]
      simp
    · rw [List.foldl_cons]
      exact ih _ hnd.2 h

theorem mem_keys_foldl_ainsert (f : Nat × γ → β) (l : List (Nat × γ))
    (m0 : List (Nat × β)) (k : Nat)
    (h : k ∈ (l.foldl (fun m p => ainsert m p.1 (f p)) m0).map Prod.fst) :
    k ∈ m0.map Prod.fst ∨ k ∈ l.map Prod.fst := by
  induction l generalizing m0 with
  | nil => exact Or.inl h
  | cons p rest ih =>
    rw [List.foldl_cons] at h
    rcases ih _ h with h' | h'
    · simp only [ainsert, List.map_cons, List.mem_cons] at h'
      rcases h' with h' | h'
      · exact Or.inr (by simp [h'])
      · exact Or.inl (mem_keys_aremove _ _ _ h')
    · exact Or.inr (by simp [h'])

theorem alookup_foldl_aremove_of_none (l : List (Nat × γ)) (m0 : List (Nat × β)) (k : Nat)
    (h : alookup m0 k = none) :
    alookup (l.foldl (fun m p => aremove m p.1) m0) k = none := by
  induction l generalizing m0 with
  | nil => exact h
  | cons p rest ih =>
    rw [List.foldl_cons]
    apply ih
    by_cases hp : k = p.1
    · subst hp
      simp
    · rw [alookup_aremove_ne _ _ _ hp]
      exact h

theorem alookup_foldl_aremove_of_mem_keys (l : List (Nat × γ)) (m0 : List (Nat × β)) (k : Nat)
    (h : k ∈ l.map Prod.fst) :
    alookup (l.foldl (fun m p => aremove m p.1) m0) k = none := by
  induction l generalizing m0 with
  | nil => simp at h
  | cons p rest ih =>
    rw [List.foldl_cons]
    by_cases hp : k = p.1
    · subst hp
      apply alookup_foldl_aremove_of_none
      simp
    · apply ih
      simp only [List.map_cons, List.mem_cons] at h
      rcases h with h | h
      · exact absurd h hp
      · exact h

theorem alookup_foldl_aremove_of_not_mem (l : List (Nat × γ)) (m0 : List (Nat × β)) (k : Nat)
    (h : k ∉ l.map Prod.fst) :
    alookup (l.foldl (fun m p => aremove m p.1) m0) k = alookup m0 k := by
  induction l generalizing m0 with
  | nil => rfl
  | cons p rest ih =>
    simp only [List.map_cons, List.mem_cons] at h
    push_neg at h
    rw [List.foldl_cons, ih _ h.2, alookup_aremove_ne _ _ _ h.1]

theorem mem_keys_foldl_aremove (l : List (Nat × γ)) (m0 : List (Nat × β)) (k : Nat)
    (h : k ∈ (l.foldl (fun m p => aremove m p.1) m0).map Prod.fst) :
    k ∈ m0.map Prod.fst := by
  induction l generalizing m0 with
  | nil => exact h
  | cons p rest ih => exact mem_keys_aremove _ _ _ (ih _ h)

end FoldLemmas

/-! ### Inversion lemmas for apply_txn_effects -/

/-- The body of stage 2 of apply_txn_effects: the state after all effects
are applied. -/
def applyMutations (st : LedgerStatus) (e : TxnEffect) : LedgerStatus :=
  { st with
      next_txn := u64mod (st.next_txn + 1)
      next_txo := u64mod (st.next_txo + e.txos.length)
      utxos := (((newUtxoSids st e.txos).zip (e.txos.filterMap id)).foldl
        (fun m p => ainsert m p.1 (Utxo.mk p.2))
        (e.input_txos.foldl (fun m p => aremove m p.1) st.utxos))
      issuance_num := e.new_issuance_nums.foldl
        (fun m p => ainsert m p.1 (newWatermark p.2)) st.issuance_num
      asset_types := e.new_asset_codes.foldl
        (fun m p => ainsert m p.1 p.2) st.asset_types }

theorem apply_txn_effects_eq_of_checks (st : LedgerStatus) (e : TxnEffect)
    (h1 : checkInputs st.utxos e.input_txos = none)
    (h2 : checkNewAssets st e.new_asset_codes = none)
    (h3 : checkIssuanceNums st e.new_asset_codes e.new_issuance_nums = .ok ()) :
    apply_txn_effects st e =
      (.ok (st.next_txn, newUtxoSids st e.txos), applyMutations st e) := by
  simp only [apply_txn_effects, h1, h2, h3, applyMutations]

theorem apply_txn_effects_ok_inv (st : LedgerStatus) (e : TxnEffect)
    (r : Nat × List Nat) (st' : LedgerStatus)
    (h : apply_txn_effects st e = (.ok r, st')) :
    checkInputs st.utxos e.input_txos = none ∧
    checkNewAssets st e.new_asset_codes = none ∧
    checkIssuanceNums st e.new_asset_codes e.new_issuance_nums = .ok () ∧
    r = (st.next_txn, newUtxoSids st e.txos) ∧
    st' = applyMutations st e := by
  cases hc1 : checkInputs st.utxos e.input_txos with
  | none =>
    cases hc2 : checkNewAssets st e.new_asset_codes with
    | none =>
      cases hc3 : checkIssuanceNums st e.new_asset_codes e.new_issuance_nums with
      | ok u =>
        cases u
        rw [apply_txn_effects_eq_of_checks st e hc1 hc2 hc3] at h
        have h1 := congrArg Prod.fst h
        have h2 := congrArg Prod.snd h
        simp only at h1 h2
        cases h1
        exact ⟨rfl, rfl, rfl, rfl, h2.symm⟩
      | err err3 =>
        simp only [apply_txn_effects, hc1, hc2, hc3] at h
        simp at h
      | panicked =>
        simp only [apply_txn_effects, hc1, hc2, hc3] at h
        simp at h
    | some err2 =>
      simp only [apply_txn_effects, hc1, hc2] at h
      simp at h
  | some err1 =>
    simp only [apply_txn_effects, hc1] at h
    simp at h

theorem apply_txn_effects_err_state (st : LedgerStatus) (e : TxnEffect)
    (h : ((apply_txn_effects st e).1).isErr = true) :
    (apply_txn_effects st e).2 = st := by
  cases hc1 : checkInputs st.utxos e.input_txos with
  | none =>
    cases hc2 : checkNewAssets st e.new_asset_codes with
    | none =>
      cases hc3 : checkIssuanceNums st e.new_asset_codes e.new_issuance_nums with
      | ok u =>
        cases u
        rw [apply_txn_effects_eq_of_checks st e hc1 hc2 hc3] at h
        simp [Outcome.isErr] at h
      | err err3 => simp only [apply_txn_effects, hc1, hc2, hc3]
      | panicked => simp only [apply_txn_effects, hc1, hc2, hc3]
    | some err2 => simp only [apply_txn_effects, hc1, hc2]
  | some err1 => simp only [apply_txn_effects, hc1]

/-! ### Lemmas about the allocated TxoSID list -/

theorem newUtxoSidsAux_mem_bounds (base : Nat) (l : List (Option TxOutput)) :
    ∀ ix : Nat, base + ix + l.length ≤ U64 →
      ∀ x ∈ newUtxoSidsAux base ix l, base + ix ≤ x ∧ x < base + ix + l.length := by
  induction l with
  | nil =>
    intro ix hov x hx
    simp [newUtxoSidsAux] at hx
  | cons o rest ih =>
    intro ix hov x hx
    simp only [List.length_cons] at hov ⊢
    cases o with
    | none =>
      simp only [newUtxoSidsAux] at hx
      have := ih (ix + 1) (by omega) x hx
      omega
    | some t =>
      simp only [newUtxoSidsAux, List.mem_cons] at hx
      rcases hx with hx | hx
      · have hlt : base + ix < U64 := by omega
        have hmodeq : u64mod (base + ix) = base + ix := by
          simp only [u64mod]
          exact Nat.mod_eq_of_lt hlt
        subst hx
        rw [hmodeq]
        omega
      · have := ih (ix + 1) (by omega) x hx
        omega

theorem newUtxoSidsAux_chain (base : Nat) (l : List (Option TxOutput)) :
    ∀ ix : Nat, base + ix + l.length ≤ U64 →
      List.Chain' (fun a b => a < b) (newUtxoSidsAux base ix l) := by
  induction l with
  | nil =>
    intro ix hov
    simp [newUtxoSidsAux]
  | cons o rest ih =>
    intro ix hov
    simp only [List.length_cons] at hov
    cases o with
    | none => exact ih (ix + 1) (by omega)
    | some t =>
      simp only [newUtxoSidsAux]
      rw [List.chain'_cons']
      refine ⟨?_, ih (ix + 1) (by omega)⟩
      intro y hy
      have hymem : y ∈ newUtxoSidsAux base (ix + 1) rest := List.mem_of_mem_head? hy
      have hb := newUtxoSidsAux_mem_bounds base rest (ix + 1) (by omega) y hymem
      have hlt : base + ix < U64 := by omega
      have hmodeq : u64mod (base + ix) = base + ix := by
        simp only [u64mod]
        exact Nat.mod_eq_of_lt hlt
      rw [hmodeq]
      omega

theorem newUtxoSidsAux_length (base : Nat) (l : List (Option TxOutput)) :
    ∀ ix : Nat, (newUtxoSidsAux base ix l).length = (l.filterMap id).length := by
  induction l with
  | nil =>
    intro ix
    rfl
  | cons o rest ih =>
    intro ix
    cases o <;> simp [newUtxoSidsAux, ih]

theorem newUtxoSidsAux_mem_inv (base : Nat) (l : List (Option TxOutput)) :
    ∀ ix x, x ∈ newUtxoSidsAux base ix l →
      ∃ i o, l.get? i = some (some o) ∧ x = u64mod (base + ix + i) := by
  induction l with
  | nil =>
    intro ix x hx
    simp [newUtxoSidsAux] at hx
  | cons hd rest ih =>
    intro ix x hx
    cases hd with
    | none =>
      obtain ⟨i, o, hg, hxe⟩ := ih (ix + 1) x (by simpa [newUtxoSidsAux] using hx)
      refine ⟨i + 1, o, by simpa using hg, ?_⟩
      rw [hxe]
      congr 1
      omega
    | some t =>
      simp only [newUtxoSidsAux, List.mem_cons] at hx
      rcases hx with hx | hx
      · refine ⟨0, t, by simp, ?_⟩
        rw [hx]
        congr 1
      · obtain ⟨i, o, hg, hxe⟩ := ih (ix + 1) x hx
        refine ⟨i + 1, o, by simpa using hg, ?_⟩
        rw [hxe]
        congr 1
        omega

theorem zip_pairs_mem (base : Nat) (l : List (Option TxOutput)) :
    ∀ ix i o, l.get? i = some (some o) →
      (u64mod (base + ix + i), o) ∈ (newUtxoSidsAux base ix l).zip (l.filterMap id) := by
  induction l with
  | nil =>
    intro ix i o h
    simp at h
  | cons hd rest ih =>
    intro ix i o h
    cases hd with
    | none =>
      cases i with
      | zero => simp at h
      | succ j =>
        simp only [List.get?_cons_succ] at h
        have hrec := ih (ix + 1) j o h
        have harith : base + (ix + 1) + j = base + ix + (j + 1) := by omega
        rw [harith] at hrec
        simpa [newUtxoSidsAux, List.filterMap_cons] using hrec
    | some t =>
      cases i with
      | zero =>
        simp only [List.get?_cons_zero, Option.some.injEq] at h
        subst h
        simp [newUtxoSidsAux, List.filterMap_cons]
      | succ j =>
        simp only [List.get?_cons_succ] at h
        have hrec := ih (ix + 1) j o h
        have harith : base + (ix + 1) + j = base + ix + (j + 1) := by omega
        rw [harith] at hrec
        simp only [newUtxoSidsAux, List.filterMap_cons, id]
        exact List.mem_cons_of_mem _ (by simpa using hrec)

theorem map_fst_zip_sids (base : Nat) (l : List (Option TxOutput)) (ix : Nat) :
    ((newUtxoSidsAux base ix l).zip (l.filterMap id)).map Prod.fst
      = newUtxoSidsAux base ix l := by
  apply List.map_fst_zip
  rw [newUtxoSidsAux_length]

/-! ### Characterizations of the stage-1 checks -/

theorem checkInputs_none_entry (utxos : List (Nat × Utxo))
    (l : List (Nat × BlindAssetRecord)) (h : checkInputs utxos l = none)
    (s : Nat) (r : BlindAssetRecord) (hmem : (s, r) ∈ l) :
    ∃ u, alookup utxos s = some u ∧ u.out.record = r := by
  induction l with
  | nil => simp at hmem
  | cons p rest ih =>
    rcases p with ⟨s0, r0⟩
    cases hl : alookup utxos s0 with
    | none => simp [checkInputs, hl] at h
    | some u0 =>
      simp only [checkInputs, hl] at h
      by_cases hrec : u0.out.record = r0
      · rw [if_neg (by simpa using hrec)] at h
        rcases List.mem_cons.mp hmem with he | he
        · have hs : s0 = s := (Prod.mk.injEq _ _ _ _ ▸ he.symm).1
          have hr : r0 = r := (Prod.mk.injEq _ _ _ _ ▸ he.symm).2
          subst hs
          subst hr
          exact ⟨u0, hl, hrec⟩
        · exact ih h he
      · rw [if_pos (by simpa using hrec)] at h
        cases h

theorem checkInputs_fails_of_missing (utxos : List (Nat × Utxo))
    (l : List (Nat × BlindAssetRecord)) (s : Nat)
    (hmem : s ∈ l.map Prod.fst) (hnone : alookup utxos s = none) :
    checkInputs utxos l = some PlatformError.InputsError := by
  induction l with
  | nil => simp at hmem
  | cons p rest ih =>
    rcases p with ⟨s0, r0⟩
    by_cases hs : s0 = s
    · subst hs
      simp [checkInputs, hnone]
    · have hrest : s ∈ rest.map Prod.fst := by
        simp only [List.map_cons, List.mem_cons] at hmem
        rcases hmem with hmem | hmem
        · exact absurd hmem.symm hs
        · exact hmem
      cases hl : alookup utxos s0 with
      | none => simp [checkInputs, hl]
      | some u0 =>
        by_cases hrec : u0.out.record = r0
        · simp only [checkInputs, hl]
          rw [if_neg (by simpa using hrec)]
          exact ih hrest
        · simp only [checkInputs, hl]
          rw [if_pos (by simpa using hrec)]

theorem checkNewAssets_none_entry (st : LedgerStatus) (l : List (Nat × AssetType))
    (h : checkNewAssets st l = none) (code : Nat) (hmem : code ∈ l.map Prod.fst) :
    alookup st.asset_types code = none ∧ alookup st.issuance_num code = none := by
  induction l with
  | nil => simp at hmem
  | cons p rest ih =>
    rcases p with ⟨c0, a0⟩
    simp only [checkNewAssets] at h
    by_cases h1 : (alookup st.asset_types c0).isSome
    · rw [if_pos h1] at h
      cases h
    · rw [if_neg h1] at h
      by_cases h2 : (alookup st.issuance_num c0).isSome
      · rw [if_pos h2] at h
        cases h
      · rw [if_neg h2] at h
        simp only [List.map_cons, List.mem_cons] at hmem
        rcases hmem with hmem | hmem
        · subst hmem
          exact ⟨Option.not_isSome_iff_eq_none.mp h1,
                 Option.not_isSome_iff_eq_none.mp h2⟩
        · exact ih h hmem

theorem checkIssuanceNums_ok_entry (st : LedgerStatus) (nac : List (Nat × AssetType))
    (l : List (Nat × List Nat)) (h : checkIssuanceNums st nac l = .ok ())
    (code : Nat) (ns : List Nat) (hmem : (code, ns) ∈ l) :
    (ns = [] → (alookup nac code).isSome) ∧
    (∀ m tl, ns = m :: tl → ∃ w, alookup st.issuance_num code = some w ∧ w ≤ m) := by
  induction l with
  | nil => simp at hmem
  | cons p rest ih =>
    rcases p with ⟨c0, ns0⟩
    cases hns0 : ns0 with
    | nil =>
      subst hns0
      simp only [checkIssuanceNums] at h
      by_cases h1 : (alookup nac c0).isNone
      · rw [if_pos h1] at h
        cases h
      · rw [if_neg h1] at h
        rcases List.mem_cons.mp hmem with he | he
        · have hc : c0 = code := (Prod.mk.injEq _ _ _ _ ▸ he.symm).1
          have hn : ([] : List Nat) = ns := (Prod.mk.injEq _ _ _ _ ▸ he.symm).2
          subst hc
          subst hn
          refine ⟨fun _ => ?_, fun m tl hmt => (by cases hmt)⟩
          cases h2 : alookup nac c0 with
          | none => rw [h2] at h1; simp at h1
          | some a => simp
        · exact ih h he
    | cons m0 tl0 =>
      subst hns0
      simp only [checkIssuanceNums] at h
      cases hl : alookup st.issuance_num c0 with
      | none =>
        simp only [hl] at h
        cases h
      | some limit =>
        simp only [hl] at h
        by_cases hlim : m0 < limit
        · rw [if_pos hlim] at h
          cases h
        · rw [if_neg hlim] at h
          rcases List.mem_cons.mp hmem with he | he
          · have hc : c0 = code := (Prod.mk.injEq _ _ _ _ ▸ he.symm).1
            have hn : (m0 :: tl0 : List Nat) = ns := (Prod.mk.injEq _ _ _ _ ▸ he.symm).2
            subst hc
            subst hn
            refine ⟨fun hnil => (by cases hnil), fun m tl hmt => ?_⟩
            have hm : m0 = m := by
              have := congrArg List.head? hmt
              simpa using this
            subst hm
            exact ⟨limit, hl, by omega⟩
          · exact ih h he

/-! ### Claim C2: rejection leaves the status unchanged -/

/-- C2: if apply_txn_effects returns an error for a TxnEffect, the
LedgerStatus is left completely unchanged: utxos, asset_types,
issuance_num, next_txn, next_txo, utxo_map_versions, global_hash and
global_commit_count all equal their pre-call values (no partial mutation
occurs on a rejected transaction). -/
theorem C2_error_leaves_status_unchanged (st : LedgerStatus) (e : TxnEffect)
    (h : ((apply_txn_effects st e).1).isErr = true) :
    (apply_txn_effects st e).2.utxos = st.utxos ∧
    (apply_txn_effects st e).2.asset_types = st.asset_types ∧
    (apply_txn_effects st e).2.issuance_num = st.issuance_num ∧
    (apply_txn_effects st e).2.next_txn = st.next_txn ∧
    (apply_txn_effects st e).2.next_txo = st.next_txo ∧
    (apply_txn_effects st e).2.utxo_map_versions = st.utxo_map_versions ∧
    (apply_txn_effects st e).2.global_hash = st.global_hash ∧
    (apply_txn_effects st e).2.global_commit_count = st.global_commit_count := by
  rw [apply_txn_effects_err_state st e h]
  exact ⟨rfl, rfl, rfl, rfl, rfl, rfl, rfl, rfl⟩

/-- Effect claiming an absolute input that a fresh ledger does not hold;
apply_txn_effects rejects it. -/
def c2BadEffect : TxnEffect :=
  { txn := { operations := [] }
    txos := []
    input_txos := [(0, { val := 0 })]
    new_asset_codes := []
    new_issuance_nums := [] }

/-- Witness for C2 at a concrete rejected effect. -/
theorem C2_witness :
    ((apply_txn_effects freshStatus c2BadEffect).1).isErr = true ∧
    (apply_txn_effects freshStatus c2BadEffect).2.utxos = freshStatus.utxos ∧
    (apply_txn_effects freshStatus c2BadEffect).2.asset_types = freshStatus.asset_types ∧
    (apply_txn_effects freshStatus c2BadEffect).2.issuance_num = freshStatus.issuance_num ∧
    (apply_txn_effects freshStatus c2BadEffect).2.next_txn = freshStatus.next_txn ∧
    (apply_txn_effects freshStatus c2BadEffect).2.next_txo = freshStatus.next_txo ∧
    (apply_txn_effects freshStatus c2BadEffect).2.utxo_map_versions = freshStatus.utxo_map_versions ∧
    (apply_txn_effects freshStatus c2BadEffect).2.global_hash = freshStatus.global_hash ∧
    (apply_txn_effects freshStatus c2BadEffect).2.global_commit_count = freshStatus.global_commit_count :=
  ⟨by decide, C2_error_leaves_status_unchanged freshStatus c2BadEffect (by decide)⟩

/-! ### Claim C4: apply_txn_effects panics on a define-and-issue effect -/

/-- Transaction that defines asset code 7 and issues one output of it in
the same transaction; compute_effect accepts it. -/
def c4DefineIssueTxn : Transaction :=
  { operations :=
      [Operation.DefineAsset { body_asset := { code := 7, payload := 0 }, sigValid := true },
       Operation.IssueAsset
         { body := { code := 7, seq_num := 0, num_outputs := 1,
                     records := [{ record := { val := 5 } }] }
           sigValid := true }] }

/-- The effect compute_effect produces for c4DefineIssueTxn. -/
def c4DefineIssueEffect : TxnEffect :=
  { txn := c4DefineIssueTxn
    txos := [some { record := { val := 5 } }]
    input_txos := []
    new_asset_codes := [(7, { properties := { code := 7, payload := 0 } })]
    new_issuance_nums := [(7, [0])] }

/-- C4: the claim that apply_txn_effects never panics fails on the code:
on an effect that both defines an asset code and carries a nonempty
issuance-sequence list for that same code — an effect compute_effect
itself produces — the issuance check unwraps the missing watermark and
panics instead of returning. -/
theorem C4_define_and_issue_panics :
    compute_effect 0 c4DefineIssueTxn = Except.ok c4DefineIssueEffect ∧
    apply_txn_effects freshStatus c4DefineIssueEffect = (.panicked, freshStatus) := by
  decide

/-! ### Claim C1: the UTXO bitmap retains bits of spent outputs -/

/-- Scenario transaction 1: define asset code 0. -/
def c1DefineTxn : Transaction :=
  { operations :=
      [Operation.DefineAsset { body_asset := { code := 0, payload := 0 }, sigValid := true }] }

/-- Scenario transaction 2: issue one output of 100 units of asset 0 with
sequence number 0. -/
def c1IssueTxn : Transaction :=
  { operations :=
      [Operation.IssueAsset
        { body := { code := 0, seq_num := 0, num_outputs := 1,
                    records := [{ record := { val := 100 } }] }
          sigValid := true }] }

/-- Scenario transaction 3: transfer consuming the committed issuance
output (absolute TxoSID 0) into two outputs of 40 and 60 units. -/
def c1TransferTxn : Transaction :=
  { operations :=
      [Operation.TransferAsset
        { body := { inputs := [TxoRef.Absolute 0], num_outputs := 2,
                    transfer := { inputs := [{ val := 100 }],
                                  outputs := [{ val := 40 }, { val := 60 }],
                                  proofValid := true } }
          body_signatures := [] }] }

/-- Effect of the define transaction. -/
def c1DefineEffect : TxnEffect :=
  { txn := c1DefineTxn
    txos := []
    input_txos := []
    new_asset_codes := [(0, { properties := { code := 0, payload := 0 } })]
    new_issuance_nums := [(0, [])] }

/-- Effect of the issue transaction. -/
def c1IssueEffect : TxnEffect :=
  { txn := c1IssueTxn
    txos := [some { record := { val := 100 } }]
    input_txos := []
    new_asset_codes := []
    new_issuance_nums := [(0, [0])] }

/-- Effect of the transfer transaction. -/
def c1TransferEffect : TxnEffect :=
  { txn := c1TransferTxn
    txos := [some { record := { val := 40 } }, some { record := { val := 60 } }]
    input_txos := [(0, { val := 100 })]
    new_asset_codes := []
    new_issuance_nums := [] }

/-- Ledger state after applying the define transaction to a fresh ledger. -/
def c1State1 : LedgerState := (apply_transaction freshState c1DefineEffect).2

/-- Ledger state after also applying the issue transaction. -/
def c1State2 : LedgerState := (apply_transaction c1State1 c1IssueEffect).2

/-- Ledger state after also applying the transfer transaction. -/
def c1State3 : LedgerState := (apply_transaction c1State2 c1TransferEffect).2

/-- C1: the claimed bitmap/utxos agreement fails on the code.  In the
spec's define-then-issue-then-transfer scenario, all three applies
succeed, slot 0 is spent (absent from utxos, which holds exactly the two
transfer outputs), yet bit 0 of the bitmap is still set: the bitmap ends
as [true, true, true] with 3 set bits among the 3 allocated slots, not 2,
because apply_transaction never clears bits of absolutely-consumed
inputs. -/
theorem C1_bitmap_disagrees_with_utxos :
    compute_effect 0 c1DefineTxn = Except.ok c1DefineEffect ∧
    compute_effect 0 c1IssueTxn = Except.ok c1IssueEffect ∧
    compute_effect 0 c1TransferTxn = Except.ok c1TransferEffect ∧
    ((apply_transaction freshState c1DefineEffect).1).isOk = true ∧
    ((apply_transaction c1State1 c1IssueEffect).1).isOk = true ∧
    ((apply_transaction c1State2 c1TransferEffect).1).isOk = true ∧
    c1State3.status.next_txn = 3 ∧
    c1State3.status.next_txo = 3 ∧
    alookup c1State3.status.utxos 0 = none ∧
    c1State3.status.utxos.length = 2 ∧
    c1State3.utxo_map = [true, true, true] ∧
    c1State3.utxo_map.count true = 3 := by
  decide

/-! ### Claim C3: double-spend prevention -/

/-- C3: if apply_txn_effects successfully applies an effect that consumes
the absolute input s (on a state whose utxo keys are below next_txo, as in
every reachable state, and whose allocation does not overflow u64), then
afterwards get_utxo s returns none, and applying any effect whose
input_txos contains s fails with the unknown-or-spent-input rejection
(InputsError), leaving the state unchanged. -/
theorem C3_double_spend_rejected (st st1 : LedgerStatus) (e1 e2 : TxnEffect)
    (s : Nat) (res : Nat × List Nat)
    (hk : ∀ k ∈ st.utxos.map Prod.fst, k < st.next_txo)
    (hov : st.next_txo + e1.txos.length ≤ U64)
    (h1 : apply_txn_effects st e1 = (.ok res, st1))
    (hs1 : s ∈ e1.input_txos.map Prod.fst)
    (hs2 : s ∈ e2.input_txos.map Prod.fst) :
    st1.get_utxo s = none ∧
    apply_txn_effects st1 e2 = (.err PlatformError.InputsError, st1) := by
  obtain ⟨hc1, _, _, _, hst⟩ := apply_txn_effects_ok_inv st e1 res st1 h1
  subst hst
  obtain ⟨p, hp, hps⟩ := List.mem_map.mp hs1
  obtain ⟨r, hr⟩ : ∃ r, (s, r) ∈ e1.input_txos := by
    rcases p with ⟨ps, pr⟩
    exact ⟨pr, by rwa [show ps = s from hps] at hp⟩
  obtain ⟨u, hu, -⟩ := checkInputs_none_entry st.utxos e1.input_txos hc1 s r hr
  have hklt : s < st.next_txo := hk s (mem_keys_of_alookup_some _ _ _ hu)
  have hrem : alookup (e1.input_txos.foldl (fun m p => aremove m p.1) st.utxos) s = none :=
    alookup_foldl_aremove_of_mem_keys _ _ _ hs1
  have hnotin : s ∉ ((newUtxoSids st e1.txos).zip (e1.txos.filterMap id)).map Prod.fst := by
    simp only [newUtxoSids]
    rw [map_fst_zip_sids]
    intro hmem
    have hb := newUtxoSidsAux_mem_bounds st.next_txo e1.txos 0 (by omega) s hmem
    omega
  have hlook : alookup (applyMutations st e1).utxos s = none := by
    simp only [applyMutations]
    rw [alookup_foldl_ainsert_of_not_mem_keys _ _ _ _ hnotin]
    exact hrem
  refine ⟨hlook, ?_⟩
  have hfail := checkInputs_fails_of_missing (applyMutations st e1).utxos
    e2.input_txos s hs2 hlook
  simp only [apply_txn_effects, hfail]

/-- Ledger status holding one unspent output, TxoSID 0 with a 100-unit
record: the define and issue effects applied to a fresh ledger. -/
def c3State : LedgerStatus :=
  (apply_txn_effects (apply_txn_effects freshStatus c1DefineEffect).2 c1IssueEffect).2

/-- Witness for C3: spend TxoSID 0 with the transfer effect, then try to
spend it again with the same effect. -/
theorem C3_witness :
    (apply_txn_effects c3State c1TransferEffect).2.get_utxo 0 = none ∧
    apply_txn_effects (apply_txn_effects c3State c1TransferEffect).2 c1TransferEffect =
      (.err PlatformError.InputsError, (apply_txn_effects c3State c1TransferEffect).2) :=
  C3_double_spend_rejected c3State (apply_txn_effects c3State c1TransferEffect).2
    c1TransferEffect c1TransferEffect 0 (2, [1, 2])
    (by decide) (by decide) (by decide) (by decide) (by decide)

/-! ### Claim C7: identifier allocation on success -/

/-- C7: on success (without u64 overflow of the allocation range),
apply_txn_effects returns the pre-call next_txn as the allocated TxnSID
together with a strictly ascending list of TxoSIDs holding one entry per
produced (non-None) output slot, assigned contiguously from the
pre-mutation next_txo (slot i gets next_txo + i), and it inserts the new
Utxos exactly at those identifiers (every other identifier is looked up in
the input-pruned pre-state). -/
theorem C7_allocation (st : LedgerStatus) (e : TxnEffect)
    (res : Nat × List Nat) (st' : LedgerStatus)
    (hov : st.next_txo + e.txos.length ≤ U64)
    (h : apply_txn_effects st e = (.ok res, st')) :
    res.1 = st.next_txn ∧
    List.Chain' (fun a b => a < b) res.2 ∧
    res.2.length = (e.txos.filterMap id).length ∧
    (∀ i o, e.txos.get? i = some (some o) →
      (st.next_txo + i) ∈ res.2 ∧
      alookup st'.utxos (st.next_txo + i) = some (Utxo.mk o)) ∧
    (∀ x ∈ res.2, ∃ i o, e.txos.get? i = some (some o) ∧ x = st.next_txo + i) ∧
    (∀ sid, sid ∉ res.2 →
      alookup st'.utxos sid =
        alookup (e.input_txos.foldl (fun m p => aremove m p.1) st.utxos) sid) := by
  obtain ⟨-, -, -, hres, hst⟩ := apply_txn_effects_ok_inv st e res st' h
  subst hres
  subst hst
  have hchain : List.Chain' (fun a b => a < b) (newUtxoSids st e.txos) := by
    simp only [newUtxoSids]
    exact newUtxoSidsAux_chain st.next_txo e.txos 0 (by omega)
  have hnd : (newUtxoSids st e.txos).Nodup := by
    have hpw := (List.chain'_iff_pairwise).mp hchain
    exact hpw.imp fun hlt => Nat.ne_of_lt hlt
  have hkeys : (((newUtxoSids st e.txos).zip (e.txos.filterMap id)).map Prod.fst)
      = newUtxoSids st e.txos := by
    simp only [newUtxoSids]
    exact map_fst_zip_sids st.next_txo e.txos 0
  refine ⟨rfl, hchain, ?_, ?_, ?_, ?_⟩
  · simp only [newUtxoSids]
    exact newUtxoSidsAux_length st.next_txo e.txos 0
  · intro i o hget
    have hilen : i < e.txos.length := by
      have := List.get?_eq_some.mp hget
      exact this.1
    have hmodeq : u64mod (st.next_txo + 0 + i) = st.next_txo + i := by
      simp only [u64mod]
      have : st.next_txo + 0 + i = st.next_txo + i := by omega
      rw [this]
      exact Nat.mod_eq_of_lt (by omega)
    have hpair := zip_pairs_mem st.next_txo e.txos 0 i o hget
    rw [hmodeq] at hpair
    have hkeysAux : ((newUtxoSidsAux st.next_txo 0 e.txos).zip
        (e.txos.filterMap id)).map Prod.fst = newUtxoSidsAux st.next_txo 0 e.txos :=
      map_fst_zip_sids st.next_txo e.txos 0
    constructor
    · have hmemmap := List.mem_map_of_mem Prod.fst hpair
      rw [hkeysAux] at hmemmap
      simpa [newUtxoSids] using hmemmap
    · have hknd : (((newUtxoSidsAux st.next_txo 0 e.txos).zip
          (e.txos.filterMap id)).map Prod.fst).Nodup := by
        rw [hkeysAux]
        simpa [newUtxoSids] using hnd
      simp only [applyMutations, newUtxoSids]
      rw [alookup_foldl_ainsert_of_mem (fun p => Utxo.mk p.2) _ _ _ o hknd hpair]
  · intro x hx
    simp only [newUtxoSids] at hx
    obtain ⟨i, o, hget, hxe⟩ := newUtxoSidsAux_mem_inv st.next_txo e.txos 0 x hx
    have hilen : i < e.txos.length := (List.get?_eq_some.mp hget).1
    refine ⟨i, o, hget, ?_⟩
    rw [hxe]
    simp only [u64mod]
    have harith : st.next_txo + 0 + i = st.next_txo + i := by omega
    rw [harith]
    exact Nat.mod_eq_of_lt (by omega)
  · intro sid hsid
    have hsid' : sid ∉ ((newUtxoSids st e.txos).zip (e.txos.filterMap id)).map Prod.fst := by
      rw [hkeys]
      exact hsid
    simp only [applyMutations]
    exact alookup_foldl_ainsert_of_not_mem_keys _ _ _ _ hsid'

/-- Witness for C7 at the concrete transfer effect on the scenario state:
the returned TxnSID (2, [1, 2]).1 equals the pre-call next_txn. -/
theorem C7_witness :
    ((2 : Nat), ([1, 2] : List Nat)).1 = c3State.next_txn ∧
    List.Chain' (fun a b => a < b) ((2 : Nat), ([1, 2] : List Nat)).2 :=
  have happ := C7_allocation c3State c1TransferEffect (2, [1, 2])
    (apply_txn_effects c3State c1TransferEffect).2 (by decide) (by decide)
  ⟨happ.1, happ.2.1⟩

/-! ### Claim C5: issuance sequence numbers are strictly increasing -/

theorem apply_txn_effects_isOk_checks (st : LedgerStatus) (e : TxnEffect)
    (h : ((apply_txn_effects st e).1).isOk = true) :
    checkInputs st.utxos e.input_txos = none ∧
    checkNewAssets st e.new_asset_codes = none ∧
    checkIssuanceNums st e.new_asset_codes e.new_issuance_nums = .ok () := by
  cases hc1 : checkInputs st.utxos e.input_txos with
  | none =>
    cases hc2 : checkNewAssets st e.new_asset_codes with
    | none =>
      cases hc3 : checkIssuanceNums st e.new_asset_codes e.new_issuance_nums with
      | ok u =>
        cases u
        exact ⟨rfl, rfl, rfl⟩
      | err err3 =>
        simp [apply_txn_effects, hc1, hc2, hc3, Outcome.isOk] at h
      | panicked =>
        simp [apply_txn_effects, hc1, hc2, hc3, Outcome.isOk] at h
    | some err2 =>
      simp [apply_txn_effects, hc1, hc2, Outcome.isOk] at h
  | some err1 =>
    simp [apply_txn_effects, hc1, Outcome.isOk] at h

/-- C5: for a fixed asset code, a successful apply of an effect whose
issuance list for that code has greatest sequence number n (with unique
map keys, as in every effect compute_effect builds, and n + 1 below 2^64)
sets the stored watermark to n + 1; a subsequent effect issuing that code
with first (minimum) sequence number at most n is rejected, while an
effect issuing only that code with sequence numbers above n passes
validation and succeeds. -/
theorem C5_issuance_watermark (st st' : LedgerStatus) (e : TxnEffect)
    (code n : Nat) (ns : List Nat) (res : Nat × List Nat)
    (hnd : (e.new_issuance_nums.map Prod.fst).Nodup)
    (hn : n + 1 < U64)
    (hcode : alookup e.new_issuance_nums code = some ns)
    (hlast : ns.getLast? = some n)
    (h1 : apply_txn_effects st e = (.ok res, st')) :
    st'.get_issuance_num code = some (n + 1) ∧
    (∀ e2 ns2 m tl, alookup e2.new_issuance_nums code = some ns2 →
       ns2 = m :: tl → m ≤ n →
       ((apply_txn_effects st' e2).1).isOk = false) ∧
    (∀ e2 ns2 m tl, e2.input_txos = [] → e2.new_asset_codes = [] →
       e2.new_issuance_nums = [(code, ns2)] → ns2 = m :: tl → n < m →
       ((apply_txn_effects st' e2).1).isOk = true) := by
  obtain ⟨-, -, -, -, hst⟩ := apply_txn_effects_ok_inv st e res st' h1
  subst hst
  have hmem := mem_of_alookup_some _ _ _ hcode
  have hmod : u64mod (n + 1) = n + 1 := by
    simp only [u64mod]
    exact Nat.mod_eq_of_lt hn
  have ha : alookup (applyMutations st e).issuance_num code = some (n + 1) := by
    simp only [applyMutations]
    rw [alookup_foldl_ainsert_of_mem (fun p => newWatermark p.2) _ _ _ ns hnd hmem]
    simp [newWatermark, hlast, hmod]
  refine ⟨ha, ?_, ?_⟩
  · intro e2 ns2 m tl hl2 hns2 hmn
    cases hok : ((apply_txn_effects (applyMutations st e) e2).1).isOk with
    | false => rfl
    | true =>
      exfalso
      obtain ⟨-, -, hc3⟩ := apply_txn_effects_isOk_checks (applyMutations st e) e2 hok
      have hentry := checkIssuanceNums_ok_entry (applyMutations st e)
        e2.new_asset_codes e2.new_issuance_nums hc3 code ns2
        (mem_of_alookup_some _ _ _ hl2)
      obtain ⟨w, hw, hwm⟩ := hentry.2 m tl hns2
      rw [ha] at hw
      have : w = n + 1 := by
        injection hw.symm
      omega
  · intro e2 ns2 m tl hin hnac hnin hns2 hnm
    have hc1 : checkInputs (applyMutations st e).utxos e2.input_txos = none := by
      rw [hin]
      rfl
    have hc2 : checkNewAssets (applyMutations st e) e2.new_asset_codes = none := by
      rw [hnac]
      rfl
    have hc3 : checkIssuanceNums (applyMutations st e) e2.new_asset_codes
        e2.new_issuance_nums = .ok () := by
      rw [hnin, hns2]
      simp only [checkIssuanceNums, ha]
      rw [if_neg (by omega)]
    rw [apply_txn_effects_eq_of_checks (applyMutations st e) e2 hc1 hc2 hc3]
    rfl

/-- Issue transaction for asset 0, sequence number 5. -/
def c5Issue5Txn : Transaction :=
  { operations :=
      [Operation.IssueAsset
        { body := { code := 0, seq_num := 5, num_outputs := 1,
                    records := [{ record := { val := 10 } }] }
          sigValid := true }] }

/-- Effect issuing asset 0 with sequence number 5. -/
def c5Issue5Effect : TxnEffect :=
  { txn := c5Issue5Txn
    txos := [some { record := { val := 10 } }]
    input_txos := []
    new_asset_codes := []
    new_issuance_nums := [(0, [5])] }

/-- Issue transaction for asset 0, sequence number 6. -/
def c5Issue6Txn : Transaction :=
  { operations :=
      [Operation.IssueAsset
        { body := { code := 0, seq_num := 6, num_outputs := 1,
                    records := [{ record := { val := 11 } }] }
          sigValid := true }] }

/-- Effect issuing asset 0 with sequence number 6. -/
def c5Issue6Effect : TxnEffect :=
  { txn := c5Issue6Txn
    txos := [some { record := { val := 11 } }]
    input_txos := []
    new_asset_codes := []
    new_issuance_nums := [(0, [6])] }

/-- Status after defining asset 0 on a fresh ledger. -/
def c5StDef : LedgerStatus := (apply_txn_effects freshStatus c1DefineEffect).2

/-- Status after additionally issuing asset 0 with sequence number 5. -/
def c5State : LedgerStatus := (apply_txn_effects c5StDef c5Issue5Effect).2

/-- Witness for C5: seq 5 then seq 5 again is rejected; seq 5 then seq 6
succeeds; the watermark after issuing seq 5 is 6. -/
theorem C5_witness :
    c5State.get_issuance_num 0 = some 6 ∧
    ((apply_txn_effects c5State c5Issue5Effect).1).isOk = false ∧
    ((apply_txn_effects c5State c5Issue6Effect).1).isOk = true :=
  have h := C5_issuance_watermark c5StDef c5State c5Issue5Effect 0 5 [5] (1, [0])
    (by decide) (by decide) (by decide) (by decide) (by decide)
  ⟨h.1,
   h.2.1 c5Issue5Effect [5] 5 [] (by decide) (by decide) (by decide),
   h.2.2 c5Issue6Effect [6] 6 [] (by decide) (by decide) (by decide) (by decide)
     (by decide)⟩

/-! ### Claim C9: compute_effect is deterministic in the transaction -/

theorem computeEffectOps_prng_irrel (p1 p2 : Nat) (ops : List Operation) :
    ∀ txos itx nac nin,
      computeEffectOps p1 ops txos itx nac nin
        = computeEffectOps p2 ops txos itx nac nin := by
  induction ops with
  | nil =>
    intro txos itx nac nin
    rfl
  | cons op rest ih =>
    intro txos itx nac nin
    cases op with
    | DefineAsset d =>
      simp only [computeEffectOps]
      repeat' split
      all_goals first | rfl | exact ih _ _ _ _
    | IssueAsset iss =>
      simp only [computeEffectOps]
      repeat' split
      all_goals first | rfl | exact ih _ _ _ _
    | TransferAsset t =>
      simp only [computeEffectOps, verify_xfr_note]
      repeat' split
      all_goals first | rfl | exact ih _ _ _ _

theorem compute_effect_prng_irrel (p1 p2 : Nat) (txn : Transaction) :
    compute_effect p1 txn = compute_effect p2 txn := by
  simp only [compute_effect, computeEffectOps_prng_irrel p1 p2]

theorem compute_effect_txn_eq (p : Nat) (txn : Transaction) (e : TxnEffect)
    (h : compute_effect p txn = .ok e) : e.txn = txn := by
  cases hc : computeEffectOps p txn.operations [] [] [] [] with
  | error er => simp [compute_effect, hc] at h
  | ok q =>
    obtain ⟨txos, itx, nac, nin⟩ := q
    simp only [compute_effect, hc] at h
    injection h with h
    rw [← h]

/-- C9: for every transaction, compute_effect yields the same result with
any PRNG states (the PRNG is threaded only into the external
confidential-transfer verifier, whose verdict depends only on the note);
consequently, re-running the compiler on the effect's embedded transaction
reproduces the structurally identical effect. -/
theorem C9_compute_effect_deterministic (p1 p2 : Nat) (txn : Transaction) (e : TxnEffect)
    (h : compute_effect p1 txn = .ok e) :
    compute_effect p2 txn = .ok e ∧ compute_effect p2 e.txn = .ok e := by
  have hirr := compute_effect_prng_irrel p1 p2 txn
  have h2 : compute_effect p2 txn = .ok e := by
    rw [← hirr]
    exact h
  have htxn : e.txn = txn := compute_effect_txn_eq p1 txn e h
  exact ⟨h2, by rw [htxn]; exact h2⟩

/-- Witness for C9 with distinct PRNG seeds 0 and 1 on the scenario
transfer transaction. -/
theorem C9_witness :
    compute_effect 1 c1TransferTxn = Except.ok c1TransferEffect ∧
    compute_effect 1 c1TransferEffect.txn = Except.ok c1TransferEffect :=
  C9_compute_effect_deterministic 0 1 c1TransferTxn c1TransferEffect (by decide)

/-! ### Claim C8: the checkpoint contract -/

/-- Driver operations on LedgerState, used to state reachability from a
fresh ledger under the block-driven caller (apply transactions, then
checkpoint at block boundaries). -/
inductive LOp
  | applyTxn (e : TxnEffect)
  | doCheckpoint

/-- One driver step. -/
def runOp (st : LedgerState) : LOp → LedgerState
  | .applyTxn e => (apply_transaction st e).2
  | .doCheckpoint => checkpoint st

/-- Run a sequence of driver steps. -/
def runOps (st : LedgerState) (l : List LOp) : LedgerState :=
  l.foldl runOp st

theorem apply_txn_effects_versions (st : LedgerStatus) (e : TxnEffect) :
    ((apply_txn_effects st e).2).utxo_map_versions = st.utxo_map_versions := by
  cases hc1 : checkInputs st.utxos e.input_txos with
  | none =>
    cases hc2 : checkNewAssets st e.new_asset_codes with
    | none =>
      cases hc3 : checkIssuanceNums st e.new_asset_codes e.new_issuance_nums with
      | ok u =>
        cases u
        rw [apply_txn_effects_eq_of_checks st e hc1 hc2 hc3]
        rfl
      | err err3 => simp only [apply_txn_effects, hc1, hc2, hc3]
      | panicked => simp only [apply_txn_effects, hc1, hc2, hc3]
    | some err2 => simp only [apply_txn_effects, hc1, hc2]
  | some err1 => simp only [apply_txn_effects, hc1]

theorem apply_transaction_versions (st : LedgerState) (e : TxnEffect) :
    ((apply_transaction st e).2).status.utxo_map_versions
      = st.status.utxo_map_versions := by
  rcases h : apply_txn_effects st.status e with ⟨out, status1⟩
  have hv : status1.utxo_map_versions = st.status.utxo_map_versions := by
    have hh := apply_txn_effects_versions st.status e
    rw [h] at hh
    exact hh
  cases out with
  | ok v =>
    rcases v with ⟨tsid, sids⟩
    simp [apply_transaction, h, hv]
  | err er => simp [apply_transaction, h, hv]
  | panicked => simp [apply_transaction, h, hv]

theorem checkpoint_versions (st : LedgerState) :
    (checkpoint st).status.utxo_map_versions =
      (if MAX_VERSION ≤ st.status.utxo_map_versions.length
       then st.status.utxo_map_versions.tail
       else st.status.utxo_map_versions)
      ++ [(st.status.next_txn, compute_checksum st.utxo_map)] := by
  simp [checkpoint, save_global_hash, save_utxo_map_version]

theorem runOps_versions_le (l : List LOp) :
    ∀ st : LedgerState, st.status.utxo_map_versions.length ≤ MAX_VERSION →
      (runOps st l).status.utxo_map_versions.length ≤ MAX_VERSION := by
  induction l with
  | nil =>
    intro st h
    exact h
  | cons op rest ih =>
    intro st h
    have hfold : runOps st (op :: rest) = runOps (runOp st op) rest := rfl
    rw [hfold]
    apply ih
    cases op with
    | applyTxn e =>
      simp only [runOp]
      rw [apply_transaction_versions]
      exact h
    | doCheckpoint =>
      simp only [runOp]
      rw [checkpoint_versions]
      by_cases hc : MAX_VERSION ≤ st.status.utxo_map_versions.length
      · rw [if_pos hc]
        simp only [List.length_append, List.length_tail, List.length_cons,
          List.length_nil, MAX_VERSION] at h hc ⊢
        omega
      · rw [if_neg hc]
        simp only [List.length_append, List.length_cons, List.length_nil,
          MAX_VERSION] at h hc ⊢
        omega

/-- C8: checkpoint pushes (current next_txn, current bitmap checksum) onto
utxo_map_versions, evicting the oldest entry once the MAX_VERSION = 100
cap is reached — so from a fresh ledger the history length never exceeds
100 under any driver sequence — then sets global_hash to the hash of
(bitmap digest, Merkle root, global_commit_count, previous global_hash)
and increments global_commit_count by exactly 1 (stated below the u64
bound). -/
theorem C8_checkpoint_contract (l : List LOp) (st : LedgerState)
    (hc : st.status.global_commit_count + 1 < U64) :
    (checkpoint st).status.utxo_map_versions.getLast?
      = some (st.status.next_txn, compute_checksum st.utxo_map) ∧
    (checkpoint st).status.utxo_map_versions.length
      = (if st.status.utxo_map_versions.length < MAX_VERSION
         then st.status.utxo_map_versions.length + 1
         else st.status.utxo_map_versions.length) ∧
    (MAX_VERSION ≤ st.status.utxo_map_versions.length →
      (checkpoint st).status.utxo_map_versions
        = st.status.utxo_map_versions.tail
          ++ [(st.status.next_txn, compute_checksum st.utxo_map)]) ∧
    (checkpoint st).status.global_hash
      = BitDigest.sha (compute_checksum st.utxo_map) st.merkle
          st.status.global_commit_count st.status.global_hash ∧
    (checkpoint st).status.global_commit_count
      = st.status.global_commit_count + 1 ∧
    (runOps freshState l).status.utxo_map_versions.length ≤ MAX_VERSION := by
  refine ⟨?_, ?_, ?_, ?_, ?_, ?_⟩
  · rw [checkpoint_versions]
    simp
  · rw [checkpoint_versions]
    by_cases h100 : MAX_VERSION ≤ st.status.utxo_map_versions.length
    · rw [if_pos h100, if_neg (by simp only [MAX_VERSION] at h100 ⊢; omega)]
      simp only [List.length_append, List.length_tail, List.length_cons,
        List.length_nil, MAX_VERSION] at h100 ⊢
      omega
    · rw [if_neg h100, if_pos (by simp only [MAX_VERSION] at h100 ⊢; omega)]
      simp only [List.length_append, List.length_cons, List.length_nil]
  · intro h100
    rw [checkpoint_versions, if_pos h100]
  · simp [checkpoint, save_global_hash, save_utxo_map_version]
  · have : u64mod (st.status.global_commit_count + 1)
        = st.status.global_commit_count + 1 := by
      simp only [u64mod]
      exact Nat.mod_eq_of_lt hc
    simp [checkpoint, save_global_hash, save_utxo_map_version, this]
  · exact runOps_versions_le l freshState (by decide)

/-- Witness for C8 on a fresh ledger with one checkpoint step. -/
theorem C8_witness :
    (checkpoint freshState).status.global_commit_count
      = freshState.status.global_commit_count + 1 ∧
    (runOps freshState [LOp.doCheckpoint]).status.utxo_map_versions.length
      ≤ MAX_VERSION :=
  have h := C8_checkpoint_contract [LOp.doCheckpoint] freshState (by decide)
  ⟨h.2.2.2.2.1, h.2.2.2.2.2⟩

/-! ### Claim C10: the finalized-transaction log -/

/-- Traces of successful apply_transaction calls on LedgerState. -/
inductive STrace : LedgerState → List TxnEffect → LedgerState → Prop
  | nil (st : LedgerState) : STrace st [] st
  | cons (st st1 st2 : LedgerState) (e : TxnEffect) (es : List TxnEffect)
      (r : Nat × List Nat)
      (h : apply_transaction st e = (.ok r, st1))
      (t : STrace st1 es st2) : STrace st (e :: es) st2

theorem apply_transaction_ok_eq (st : LedgerState) (e : TxnEffect)
    (r : Nat × List Nat) (status1 : LedgerStatus)
    (hap : apply_txn_effects st.status e = (.ok r, status1)) :
    apply_transaction st e =
      (.ok r,
       { status := status1
         merkle := st.merkle ++ [compute_merkle_hash e.txn r.1]
         txs := st.txs ++ [{ txn := e.txn, tx_id := r.1,
                             merkle_id := st.merkle.length }]
         utxo_map := bitmapUpdateLoop st.utxo_map r.2 0 st.status.next_txo
                       (status1.next_txo - st.status.next_txo) }) := by
  rcases r with ⟨tsid, sids⟩
  simp only [apply_transaction, hap]

theorem apply_transaction_step_txs (st st1 : LedgerState) (e : TxnEffect)
    (r : Nat × List Nat) (hap : apply_transaction st e = (.ok r, st1)) :
    st1.txs = st.txs ++ [{ txn := e.txn, tx_id := st.status.next_txn,
                           merkle_id := st.merkle.length }] ∧
    st1.status.next_txn = u64mod (st.status.next_txn + 1) := by
  rcases hae : apply_txn_effects st.status e with ⟨out, status1⟩
  cases out with
  | err er => simp [apply_transaction, hae] at hap
  | panicked => simp [apply_transaction, hae] at hap
  | ok v =>
    obtain ⟨-, -, -, hres, hstat⟩ :=
      apply_txn_effects_ok_inv st.status e v status1 hae
    rw [apply_transaction_ok_eq st e v status1 hae] at hap
    have h2 := congrArg Prod.snd hap
    simp only at h2
    rw [← h2]
    subst hres
    subst hstat
    constructor
    · rfl
    · simp [applyMutations]

theorem strace_txs_inv (es : List TxnEffect) (st st' : LedgerState)
    (h : STrace st es st') :
    st.txs.length = st.status.next_txn →
    st.status.next_txn + es.length < U64 →
    (∀ i, i < st.txs.length →
      (st.txs.get? i).map FinalizedTransaction.tx_id = some i) →
    (st'.txs.length = st'.status.next_txn ∧
     (∀ i, i < st'.txs.length →
       (st'.txs.get? i).map FinalizedTransaction.tx_id = some i) ∧
     st'.status.next_txn = st.status.next_txn + es.length) := by
  induction h with
  | nil st0 =>
    intro hlen hbound hids
    exact ⟨hlen, hids, by simp⟩
  | cons st0 st1 st2 e es0 r hap t ih =>
    intro hlen hbound hids
    obtain ⟨htxs, hntxn0⟩ := apply_transaction_step_txs st0 st1 e r hap
    simp only [List.length_cons] at hbound
    have hntxn : st1.status.next_txn = st0.status.next_txn + 1 := by
      rw [hntxn0]
      simp only [u64mod]
      exact Nat.mod_eq_of_lt (by omega)
    have hlen1 : st1.txs.length = st1.status.next_txn := by
      rw [htxs, hntxn]
      simp [hlen]
    have hids1 : ∀ i, i < st1.txs.length →
        (st1.txs.get? i).map FinalizedTransaction.tx_id = some i := by
      intro i hi
      rw [htxs] at hi ⊢
      simp only [List.length_append, List.length_cons, List.length_nil] at hi
      by_cases hil : i < st0.txs.length
      · rw [List.get?_append hil]
        exact hids i hil
      · have hieq : i = st0.txs.length := by omega
        subst hieq
        rw [List.get?_concat_length]
        simp [hlen]
    have hmain := ih hlen1 (by rw [hntxn]; omega) hids1
    refine ⟨hmain.1, hmain.2.1, ?_⟩
    simp only [List.length_cons]
    rw [hmain.2.2, hntxn]
    omega

/-- C10: after every sequence of successful apply_transaction calls from a
fresh ledger (of u64-representable length), the finalized-transaction list
txs has length next_txn, the entry at index i carries tx_id i, and
get_transaction s returns Some exactly when s < next_txn, with the
returned transaction's tx_id equal to s. -/
theorem C10_transaction_log (es : List TxnEffect) (st : LedgerState)
    (h : STrace freshState es st) (hN : es.length < U64) :
    st.txs.length = st.status.next_txn ∧
    (∀ i, i < st.txs.length →
      (st.txs.get? i).map FinalizedTransaction.tx_id = some i) ∧
    (∀ s, (get_transaction st s).isSome = true ↔ s < st.status.next_txn) ∧
    (∀ s ft, get_transaction st s = some ft → ft.tx_id = s) := by
  obtain ⟨hlen, hids, hcount⟩ := strace_txs_inv es freshState st h rfl
    (by simpa [freshState, freshStatus, LedgerStatus.new] using hN)
    (by intro i hi; simp [freshState] at hi)
  refine ⟨hlen, hids, ?_, ?_⟩
  · intro s
    rw [← hlen]
    simp only [get_transaction]
    constructor
    · intro hs
      obtain ⟨ft, hft⟩ := Option.isSome_iff_exists.mp hs
      exact (List.get?_eq_some.mp hft).1
    · intro hs
      rw [List.get?_eq_get hs]
      rfl
  · intro s ft hft
    have hslen : s < st.txs.length := (List.get?_eq_some.mp hft).1
    have hmap := hids s hslen
    rw [show st.txs.get? s = some ft from hft] at hmap
    simpa using hmap

/-- Witness for C10 at the one-step trace applying the define effect. -/
theorem C10_witness :
    c1State1.txs.length = c1State1.status.next_txn ∧
    (∀ s ft, get_transaction c1State1 s = some ft → ft.tx_id = s) :=
  have h := C10_transaction_log [c1DefineEffect] c1State1
    (STrace.cons freshState c1State1 c1State1 c1DefineEffect [] (0, [])
      (by decide) (STrace.nil c1State1)) (by decide)
  ⟨h.1, h.2.2.2⟩

/-! ### Claim C6: the reachable-state invariant of LedgerStatus -/

/-- The documented structural invariants of a TxnEffect as compute_effect
builds it: the issuance map binds each code once, and each sequence list
is sorted strictly increasing with all successors representable in u64. -/
def effWF (e : TxnEffect) : Prop :=
  (e.new_issuance_nums.map Prod.fst).Nodup ∧
  ∀ p ∈ e.new_issuance_nums,
    List.Chain' (fun a b => a < b) p.2 ∧ ∀ n ∈ p.2, n + 1 < U64

instance (e : TxnEffect) : Decidable (effWF e) :=
  inferInstanceAs (Decidable
    ((e.new_issuance_nums.map Prod.fst).Nodup ∧
     ∀ p ∈ e.new_issuance_nums,
       List.Chain' (fun a b => a < b) p.2 ∧ ∀ n ∈ p.2, n + 1 < U64))

/-- Traces of successful apply_txn_effects calls on LedgerStatus. -/
inductive Trace : LedgerStatus → List TxnEffect → LedgerStatus → Prop
  | nil (st : LedgerStatus) : Trace st [] st
  | cons (st st1 st2 : LedgerStatus) (e : TxnEffect) (es : List TxnEffect)
      (r : Nat × List Nat)
      (h : apply_txn_effects st e = (.ok r, st1))
      (t : Trace st1 es st2) : Trace st (e :: es) st2

/-- Total number of output slots allocated by a list of effects,
internally-consumed None slots included. -/
def totalTxos (es : List TxnEffect) : Nat :=
  (es.map (fun e => e.txos.length)).sum

theorem exists_val_of_mem_keys {β : Type} (m : List (Nat × β)) (k : Nat)
    (h : k ∈ m.map Prod.fst) : ∃ v, (k, v) ∈ m := by
  rcases List.mem_map.mp h with ⟨p, hp, hps⟩
  rcases p with ⟨a, b⟩
  cases hps
  exact ⟨b, hp⟩

theorem getLast?_mem_self (l : List Nat) (a : Nat) (h : l.getLast? = some a) :
    a ∈ l := by
  induction l with
  | nil => cases h
  | cons x rest ih =>
    cases hr : rest with
    | nil =>
      subst hr
      simp at h
      simp [h]
    | cons y rest2 =>
      subst hr
      rw [List.getLast?_cons_cons] at h
      exact List.mem_cons_of_mem _ (ih h)

theorem chain'_le_getLast (l : List Nat) :
    List.Chain' (fun a b => a < b) l →
    ∀ last, l.getLast? = some last → ∀ x ∈ l, x ≤ last := by
  induction l with
  | nil =>
    intro _ last hl
    cases hl
  | cons a rest ih =>
    intro hc last hl x hx
    cases hrest : rest with
    | nil =>
      subst hrest
      simp at hl hx
      omega
    | cons b rest2 =>
      subst hrest
      rw [List.getLast?_cons_cons] at hl
      rw [List.chain'_cons] at hc
      rcases List.mem_cons.mp hx with hx | hx
      · subst hx
        have hb := ih hc.2 last hl b (List.mem_cons_self _ _)
        omega
      · exact ih hc.2 last hl x hx

theorem step_keys_bound (st : LedgerStatus) (e : TxnEffect)
    (hb : st.next_txo + e.txos.length ≤ U64)
    (hk : ∀ k ∈ st.utxos.map Prod.fst, k < st.next_txo) :
    ∀ k ∈ (applyMutations st e).utxos.map Prod.fst,
      k < st.next_txo + e.txos.length := by
  intro k hkmem
  simp only [applyMutations] at hkmem
  rcases mem_keys_foldl_ainsert _ _ _ _ hkmem with h | h
  · have hmem0 := mem_keys_foldl_aremove _ _ _ h
    have := hk k hmem0
    omega
  · have h' : k ∈ newUtxoSidsAux st.next_txo 0 e.txos := by
      simpa [newUtxoSids, map_fst_zip_sids] using h
    have := newUtxoSidsAux_mem_bounds st.next_txo e.txos 0 (by omega) k h'
    omega

theorem step_issuance (st : LedgerStatus) (e : TxnEffect)
    (hwf : effWF e)
    (hchk : checkNewAssets st e.new_asset_codes = none)
    (hiss : checkIssuanceNums st e.new_asset_codes e.new_issuance_nums = .ok ()) :
    (∀ code w, alookup st.issuance_num code = some w →
       ∃ w', alookup (applyMutations st e).issuance_num code = some w' ∧ w ≤ w') ∧
    (∀ code ns, alookup e.new_issuance_nums code = some ns →
       ∀ n ∈ ns, ∃ w', alookup (applyMutations st e).issuance_num code = some w' ∧
         n < w') := by
  obtain ⟨hnd, hlists⟩ := hwf
  constructor
  · intro code w hw
    by_cases hmemk : code ∈ e.new_issuance_nums.map Prod.fst
    · obtain ⟨ns, hns⟩ := exists_val_of_mem_keys _ _ hmemk
      have hfold : alookup (applyMutations st e).issuance_num code
          = some (newWatermark ns) := by
        simp only [applyMutations]
        exact alookup_foldl_ainsert_of_mem (fun p => newWatermark p.2) _ _ _ ns hnd hns
      have hentry := checkIssuanceNums_ok_entry st e.new_asset_codes
        e.new_issuance_nums hiss code ns hns
      cases hcases : ns with
      | nil =>
        subst hcases
        have hsome := hentry.1 rfl
        obtain ⟨a, ha⟩ := Option.isSome_iff_exists.mp hsome
        have hkeys := mem_keys_of_alookup_some _ _ _ ha
        have := (checkNewAssets_none_entry st e.new_asset_codes hchk code hkeys).2
        rw [this] at hw
        cases hw
      | cons m tl =>
        subst hcases
        obtain ⟨limit, hlimit, hlm⟩ := hentry.2 m tl rfl
        rw [hlimit] at hw
        injection hw with hw
        subst hw
        cases hlast : (m :: tl).getLast? with
        | none =>
          rw [List.getLast?_eq_none_iff] at hlast
          exact absurd hlast (List.cons_ne_nil m tl)
        | some last =>
          have hlmem := getLast?_mem_self _ _ hlast
          have hmmem : m ∈ m :: tl := List.mem_cons_self _ _
          have hprop := hlists (code, m :: tl) hns
          have hle := chain'_le_getLast _ hprop.1 last hlast m hmmem
          have hbound := hprop.2 last hlmem
          refine ⟨newWatermark (m :: tl), hfold, ?_⟩
          simp only [newWatermark, hlast, u64mod]
          rw [Nat.mod_eq_of_lt hbound]
          omega
    · refine ⟨w, ?_, le_refl w⟩
      simp only [applyMutations]
      rw [alookup_foldl_ainsert_of_not_mem_keys _ _ _ _ hmemk]
      exact hw
  · intro code ns hns n hn
    have hmem := mem_of_alookup_some _ _ _ hns
    have hfold : alookup (applyMutations st e).issuance_num code
        = some (newWatermark ns) := by
      simp only [applyMutations]
      exact alookup_foldl_ainsert_of_mem (fun p => newWatermark p.2) _ _ _ ns hnd hmem
    cases hlast : ns.getLast? with
    | none =>
      rw [List.getLast?_eq_none_iff] at hlast
      subst hlast
      cases hn
    | some last =>
      have hprop := hlists (code, ns) hmem
      have hle := chain'_le_getLast _ hprop.1 last hlast n hn
      have hbound := hprop.2 last (getLast?_mem_self _ _ hlast)
      refine ⟨newWatermark ns, hfold, ?_⟩
      simp only [newWatermark, hlast, u64mod]
      rw [Nat.mod_eq_of_lt hbound]
      omega

theorem trace_invariant (es : List TxnEffect) (st st' : LedgerStatus)
    (h : Trace st es st') :
    (∀ e ∈ es, effWF e) →
    st.next_txn + es.length < U64 →
    st.next_txo + totalTxos es < U64 →
    (∀ k ∈ st.utxos.map Prod.fst, k < st.next_txo) →
    (st'.next_txn = st.next_txn + es.length ∧
     st'.next_txo = st.next_txo + totalTxos es ∧
     (∀ k ∈ st'.utxos.map Prod.fst, k < st'.next_txo) ∧
     (∀ code w, alookup st.issuance_num code = some w →
        ∃ w', alookup st'.issuance_num code = some w' ∧ w ≤ w') ∧
     (∀ e ∈ es, ∀ code ns, alookup e.new_issuance_nums code = some ns →
        ∀ n ∈ ns, ∃ w', alookup st'.issuance_num code = some w' ∧ n < w')) := by
  induction h with
  | nil st0 =>
    intro _ _ _ hk
    exact ⟨by simp, by simp [totalTxos], hk,
           fun code w hw => ⟨w, hw, le_refl w⟩, by simp⟩
  | cons st0 st1 st2 e es0 r hap t ih =>
    intro hwf hN hT hk
    obtain ⟨hc1, hc2, hc3, hres, hstat⟩ := apply_txn_effects_ok_inv st0 e r st1 hap
    subst hstat
    simp only [List.length_cons] at hN
    have hTcons : totalTxos (e :: es0) = e.txos.length + totalTxos es0 := by
      simp [totalTxos]
    rw [hTcons] at hT
    have hnn : (applyMutations st0 e).next_txn = st0.next_txn + 1 := by
      simp only [applyMutations, u64mod]
      exact Nat.mod_eq_of_lt (by omega)
    have hno : (applyMutations st0 e).next_txo = st0.next_txo + e.txos.length := by
      simp only [applyMutations, u64mod]
      exact Nat.mod_eq_of_lt (by omega)
    have hk1 : ∀ k ∈ (applyMutations st0 e).utxos.map Prod.fst,
        k < (applyMutations st0 e).next_txo := by
      rw [hno]
      exact step_keys_bound st0 e (by omega) hk
    have hstep := step_issuance st0 e (hwf e (by simp)) hc2 hc3
    have hmain := ih (fun e2 he2 => hwf e2 (by simp [he2]))
      (by rw [hnn]; omega) (by rw [hno]; omega) hk1
    refine ⟨?_, ?_, hmain.2.2.1, ?_, ?_⟩
    · simp only [List.length_cons]
      rw [hmain.1, hnn]
      omega
    · rw [hmain.2.1, hno, hTcons]
      omega
    · intro code w hw
      obtain ⟨w1, hw1, hle1⟩ := hstep.1 code w hw
      obtain ⟨w2, hw2, hle2⟩ := hmain.2.2.2.1 code w1 hw1
      exact ⟨w2, hw2, by omega⟩
    · intro e2 he2 code ns hns n hn
      rcases List.mem_cons.mp he2 with he2 | he2
      · subst he2
        obtain ⟨w1, hw1, hlt1⟩ := hstep.2 code ns hns n hn
        obtain ⟨w2, hw2, hle2⟩ := hmain.2.2.2.1 code w1 hw1
        exact ⟨w2, hw2, by omega⟩
      · exact hmain.2.2.2.2 e2 he2 code ns hns n hn

/-- C6: after any sequence of successful apply_txn_effects calls on
well-formed effects from a fresh ledger (with u64-representable counts),
next_txn equals the number of transactions applied, next_txo equals the
total number of output slots ever allocated (None slots included), every
utxo key is strictly below next_txo, and the issuance watermark of a code
is strictly greater than every sequence number ever issued for it. -/
theorem C6_reachable_invariant (es : List TxnEffect) (st : LedgerStatus)
    (h : Trace freshStatus es st)
    (hwf : ∀ e ∈ es, effWF e)
    (hN : es.length < U64) (hT : totalTxos es < U64) :
    st.next_txn = es.length ∧
    st.next_txo = totalTxos es ∧
    (∀ k ∈ st.utxos.map Prod.fst, k < st.next_txo) ∧
    (∀ e ∈ es, ∀ code ns, alookup e.new_issuance_nums code = some ns →
       ∀ n ∈ ns, ∃ w, st.get_issuance_num code = some w ∧ n < w) := by
  obtain ⟨h1, h2, h3, -, h5⟩ := trace_invariant es freshStatus st h hwf
    (by simpa [freshStatus, LedgerStatus.new] using hN)
    (by simpa [freshStatus, LedgerStatus.new] using hT)
    (by intro k hk; simp [freshStatus, LedgerStatus.new] at hk)
  refine ⟨by simpa [freshStatus, LedgerStatus.new] using h1,
          by simpa [freshStatus, LedgerStatus.new] using h2, h3, ?_⟩
  intro e he code ns hns n hn
  exact h5 e he code ns hns n hn

/-- Witness for C6 at the two-step trace define-then-issue. -/
theorem C6_witness :
    c5State.next_txn = [c1DefineEffect, c5Issue5Effect].length ∧
    c5State.next_txo = totalTxos [c1DefineEffect, c5Issue5Effect] :=
  have h := C6_reachable_invariant [c1DefineEffect, c5Issue5Effect] c5State
    (Trace.cons freshStatus c5StDef c5State c1DefineEffect [c5Issue5Effect] (0, [])
      (by decide)
      (Trace.cons c5StDef c5State c5State c5Issue5Effect [] (1, [0])
        (by decide) (Trace.nil c5State)))
    (by
      intro e he
      fin_cases he
      · exact ⟨by simp [c1DefineEffect], by simp [c1DefineEffect]⟩
      · refine ⟨by simp [c5Issue5Effect], ?_⟩
        intro p hp
        simp only [c5Issue5Effect, List.mem_singleton] at hp
        subst hp
        refine ⟨by simp, ?_⟩
        intro n hn
        simp only [List.mem_singleton] at hn
        subst hn
        decide)
    (by decide) (by decide)
  ⟨h.1, h.2.1⟩
